import Mathlib

/-!
Verification of the exec-approval broker (`src/gateway/exec-approval-manager.ts`).

The manager is embedded as an explicit state machine:

* the in-memory `Map` of pending entries becomes an association list that
  preserves insertion order and replaces in place, mirroring JS `Map` semantics;
* each `PendingEntry` carries its record, a `timerActive` flag modelling the
  not-yet-cleared `setTimeout` handle, a `promiseId` serving as the object
  identity of its promise, and the list of values passed to the resolve
  callback of that promise (`fulfillments`), so exactly-once fulfillment is a provable
  property rather than an assumption;
* the journal file is a list of lines, each line being either a line that
  parses as a `JournalEntry`, a non-blank line that fails to parse, or a line
  that trims to blank (the JSON serialize/parse round trip is the one
  abstracted primitive); write and read failures are supplied as oracles so
  that the error-handling paths of the source are faithfully represented.

TypeScript optional fields `x?: T | null` are modelled as `Option (Option T)`
(outer `none` = absent/undefined, `some none` = null). The opaque
`ExecApprovalDecision` vocabulary is modelled as `String`.
-/

namespace ExecApproval

/-- Decision vocabulary, opaque to this core (`approve` / `deny` strings). -/
abbrev ExecApprovalDecision := String

/-- Payload of an approval request (`ExecApprovalRequestPayload`). -/
structure ExecApprovalRequestPayload where
  command : String
  cwd : Option String := none
  host : Option String := none
  security : Option String := none
  ask : Option String := none
  agentId : Option String := none
  resolvedPath : Option String := none
  sessionKey : Option String := none
deriving Repr, DecidableEq, Inhabited

/-- One approval record (`ExecApprovalRecord`).  Fields declared `x?: T` in the
source are `Option T`; fields declared `x?: T | null` are `Option (Option T)`. -/
structure ExecApprovalRecord where
  id : String
  request : ExecApprovalRequestPayload
  createdAtMs : Nat
  expiresAtMs : Nat
  requestedByConnId : Option (Option String) := none
  requestedByDeviceId : Option (Option String) := none
  requestedByClientId : Option (Option String) := none
  resolvedAtMs : Option Nat := none
  decision : Option ExecApprovalDecision := none
  resolvedBy : Option (Option String) := none
deriving Repr, DecidableEq, Inhabited

/-- An entry of the durable journal (`JournalEntry`). -/
structure JournalEntry where
  id : String
  command : String
  decision : Option ExecApprovalDecision
  resolvedBy : Option String
  resolvedAtMs : Nat
  requestedByDeviceId : Option (Option String) := none
deriving Repr, DecidableEq

/-- In-memory entry for one registered approval (`PendingEntry`).
`timerActive` models a `setTimeout` handle that has not fired and has not been
cleared; `promiseId` is the identity of the decision promise; `fulfillments`
records every value ever passed to the resolve callback of the promise. -/
structure PendingEntry where
  record : ExecApprovalRecord
  timerActive : Bool
  promiseId : Nat
  fulfillments : List (Option ExecApprovalDecision)
deriving Repr, DecidableEq

/-- A line of the journal file: a line that JSON-parses to an entry, a
non-blank line that fails to parse, or a line that trims to blank. -/
inductive JournalLine where
  | entry (e : JournalEntry)
  | malformed
  | blank
deriving Repr, DecidableEq

/-- The journal file on disk: absent, or present with its lines and its
permission bits. -/
inductive FsFile where
  | absent
  | content (lines : List JournalLine) (mode : Nat)
deriving Repr, DecidableEq

/-- Filesystem state relevant to the manager: whether the persist directory
exists, and the journal file. -/
structure FsState where
  dirExists : Bool
  file : FsFile
deriving Repr, DecidableEq

/-- Whole-broker state: configuration, the pending map (insertion-ordered
association list, as a JS `Map`), the promise-identity counter, and the
filesystem. -/
structure BrokerState where
  persistDir : Option String
  pending : List (String × PendingEntry)
  nextPromiseId : Nat
  fs : FsState
deriving Repr, DecidableEq

/-- Lookup in the pending map, as JS `Map.get`: first binding for the key. -/
def lookupPending : List (String × PendingEntry) → String → Option PendingEntry
  | [], _ => none
  | (k, v) :: rest, id => if k = id then some v else lookupPending rest id

/-- Insertion, as JS `Map.set`: replace in place if the key is bound, else
append. -/
def setPending : List (String × PendingEntry) → String → PendingEntry →
    List (String × PendingEntry)
  | [], id, e => [(id, e)]
  | (k, v) :: rest, id, e =>
    if k = id then (id, e) :: rest else (k, v) :: setPending rest id e

/-- Removal, as JS `Map.delete`. -/
def deletePending (m : List (String × PendingEntry)) (id : String) :
    List (String × PendingEntry) :=
  m.filter (fun kv => kv.1 ≠ id)

/-- JS `String.prototype.trim`: strip whitespace from both ends. -/
def jsTrim (s : String) : String :=
  ⟨((s.data.dropWhile Char.isWhitespace).reverse.dropWhile
      Char.isWhitespace).reverse⟩

/-- Embedding of `create(request, timeoutMs, id?)` (lines 65-79): pure record
construction.
`now` stands for the single `Date.now()` call and `uuid` for `randomUUID()`. -/
def create (request : ExecApprovalRequestPayload) (timeoutMs : Nat)
    (id : Option String) (now : Nat) (uuid : String) : ExecApprovalRecord :=
  let resolvedId :=
    match id with
    | some s => if (jsTrim s).length > 0 then jsTrim s else uuid
    | none => uuid
  { id := resolvedId
    request := request
    createdAtMs := now
    expiresAtMs := now + timeoutMs }

/-- The `create` method as a state transformer: its body reads and writes no
broker field, so the state passes through unchanged. -/
def createOp (st : BrokerState) (request : ExecApprovalRequestPayload)
    (timeoutMs : Nat) (id : Option String) (now : Nat) (uuid : String) :
    ExecApprovalRecord × BrokerState :=
  (create request timeoutMs id now uuid, st)

/-- Embedding of `register(record, timeoutMs)` (lines 86-126).  Returns the
promise id on
success; throwing `Error(... already resolved)` becomes `Except.error`. -/
def registerOp (st : BrokerState) (record : ExecApprovalRecord) :
    Except String (BrokerState × Nat) :=
  match lookupPending st.pending record.id with
  | some existing =>
    match existing.record.resolvedAtMs with
    | none => .ok (st, existing.promiseId)
    | some _ => .error ("approval id " ++ record.id ++ " already resolved")
  | none =>
    let entry : PendingEntry :=
      { record := record
        timerActive := true
        promiseId := st.nextPromiseId
        fulfillments := [] }
    .ok ({ st with
            pending := setPending st.pending record.id entry
            nextPromiseId := st.nextPromiseId + 1 },
         st.nextPromiseId)

/-- The record mutation performed by a successful `resolve` (lines 148-150). -/
def stampRecord (r : ExecApprovalRecord) (decision : ExecApprovalDecision)
    (resolvedBy : Option String) (now : Nat) : ExecApprovalRecord :=
  { r with
    resolvedAtMs := some now
    decision := some decision
    resolvedBy := some resolvedBy }

/-- The `JournalEntry` built from a resolved record (lines 224-231). -/
def journalEntryOf (record : ExecApprovalRecord) : JournalEntry :=
  { id := record.id
    command := record.request.command
    decision := record.decision
    resolvedBy := record.resolvedBy.getD none
    resolvedAtMs := record.resolvedAtMs.getD 0
    requestedByDeviceId := some (record.requestedByDeviceId.getD none) }

/-- Outcome oracle for the two filesystem calls inside `appendJournalEntry`:
both succeed, `mkdirSync` throws, or `appendFileSync` throws. -/
inductive WriteOutcome where
  | ok
  | mkdirFails
  | appendFails
deriving Repr, DecidableEq

/-- Embedding of `appendJournalEntry(record)` (lines 219-241): no-op without
a persist
directory; otherwise create the directory, then append one newline-terminated
serialized entry, creating the file with mode `0o600`; every thrown error is
swallowed. -/
def appendJournalEntry (persistDir : Option String) (fs : FsState)
    (record : ExecApprovalRecord) (w : WriteOutcome) : FsState :=
  match persistDir with
  | none => fs
  | some _ =>
    match w with
    | .mkdirFails => fs
    | .appendFails => { fs with dirExists := true }
    | .ok =>
      { dirExists := true
        file :=
          match fs.file with
          | .absent => .content [.entry (journalEntryOf record)] 0o600
          | .content ls m => .content (ls ++ [.entry (journalEntryOf record)]) m }

/-- Embedding of `resolve(recordId, decision, resolvedBy?)` (lines 138-163).
Returns the
new state and the boolean result.  `now` stands for `Date.now()`, `w` for the
outcome of the journal write. -/
def resolveOp (st : BrokerState) (recordId : String)
    (decision : ExecApprovalDecision) (resolvedBy : Option String) (now : Nat)
    (w : WriteOutcome) : BrokerState × Bool :=
  match lookupPending st.pending recordId with
  | none => (st, false)
  | some pending =>
    match pending.record.resolvedAtMs with
    | some _ => (st, false)
    | none =>
      let record' := stampRecord pending.record decision resolvedBy now
      let entry' : PendingEntry :=
        { pending with
          record := record'
          timerActive := false
          fulfillments := pending.fulfillments ++ [some decision] }
      ({ st with
          pending := setPending st.pending recordId entry'
          fs := appendJournalEntry st.persistDir st.fs record' w },
       true)

/-- Firing of the timeout scheduled by `register` (lines 110-123): enabled
only while the timer has not been cleared; stamps an expiry resolution
(decision absent, resolvedBy null), fulfills the promise with `null`, and
writes no journal entry. -/
def timerFireOp (st : BrokerState) (recordId : String) (now : Nat) :
    BrokerState :=
  match lookupPending st.pending recordId with
  | none => st
  | some entry =>
    if entry.timerActive then
      let record' := { entry.record with
        resolvedAtMs := some now
        decision := none
        resolvedBy := some none }
      let entry' : PendingEntry :=
        { entry with
          record := record'
          timerActive := false
          fulfillments := entry.fulfillments ++ [none] }
      { st with pending := setPending st.pending recordId entry' }
    else st

/-- Firing of the grace-period eviction timeout (lines 117-122 and 156-161):
delete only if the stored entry is still the captured one; `pid` is the
promise id of the captured entry, standing for its object identity. -/
def evictOp (st : BrokerState) (recordId : String) (pid : Nat) : BrokerState :=
  match lookupPending st.pending recordId with
  | none => st
  | some entry =>
    if entry.promiseId = pid then
      { st with pending := deletePending st.pending recordId }
    else st

/-- Embedding of `getSnapshot(recordId)` (lines 165-168). -/
def getSnapshot (st : BrokerState) (recordId : String) :
    Option ExecApprovalRecord :=
  (lookupPending st.pending recordId).map (·.record)

/-- Embedding of `awaitDecision(recordId)` (lines 174-177): the promise id if
tracked. -/
def awaitDecision (st : BrokerState) (recordId : String) : Option Nat :=
  (lookupPending st.pending recordId).map (·.promiseId)

/-- Error raised by reading the journal file. -/
inductive JournalReadError where
  | enoent
  | ioError
deriving Repr, DecidableEq

/-- Embedding of `fs.readFileSync` on the journal path: `readFails` is the
oracle for a
non-ENOENT device error. -/
def readJournalFile (file : FsFile) (readFails : Bool) :
    Except JournalReadError (List JournalLine) :=
  if readFails then .error .ioError
  else
    match file with
    | .absent => .error .enoent
    | .content lines _ => .ok lines

/-- Parsing of one line inside the `loadJournal` loop: blank lines are skipped
before parsing, malformed lines fail to parse and are skipped by the catch. -/
def parseLine : JournalLine → Option JournalEntry
  | .entry e => some e
  | .malformed => none
  | .blank => none

/-- The whole line loop of `loadJournal` (lines 190-198). -/
def parseLines (lines : List JournalLine) : List JournalEntry :=
  lines.filterMap parseLine

/-- Embedding of `loadJournal()` (lines 182-206): empty without a persist
directory; read
the file, parse line by line; ENOENT yields empty, any other error rethrows. -/
def loadJournal (persistDir : Option String) (file : FsFile)
    (readFails : Bool) : Except JournalReadError (List JournalEntry) :=
  match persistDir with
  | none => .ok []
  | some _ =>
    match readJournalFile file readFails with
    | .ok lines => .ok (parseLines lines)
    | .error .enoent => .ok []
    | .error .ioError => .error .ioError

/-- Embedding of `entries.slice(-limit)` for a positive `limit`: the last
`limit` elements. -/
def takeLast (l : List JournalEntry) (k : Nat) : List JournalEntry :=
  l.drop (l.length - k)

/-- Embedding of `getAuditLog(limit?)` (lines 211-217). -/
def getAuditLog (persistDir : Option String) (file : FsFile)
    (readFails : Bool) (limit : Option Nat) :
    Except JournalReadError (List JournalEntry) :=
  match loadJournal persistDir file readFails with
  | .error e => .error e
  | .ok entries =>
    .ok (match limit with
         | some k => if k > 0 then takeLast entries k else entries
         | none => entries)

/-- One asynchronously-scheduled event acting on the broker state. -/
inductive BrokerOp where
  | register (record : ExecApprovalRecord)
  | resolve (recordId : String) (decision : ExecApprovalDecision)
      (resolvedBy : Option String) (now : Nat) (w : WriteOutcome)
  | timerFire (recordId : String) (now : Nat)
  | evict (recordId : String) (pid : Nat)
deriving Repr

/-- The state reached after one event (a thrown registration error leaves the
state untouched, since `register` throws before any mutation). -/
def stepOp (st : BrokerState) : BrokerOp → BrokerState
  | .register r =>
    match registerOp st r with
    | .ok (st', _) => st'
    | .error _ => st
  | .resolve id d rb now w => (resolveOp st id d rb now w).1
  | .timerFire id now => timerFireOp st id now
  | .evict id pid => evictOp st id pid

/-- Per-entry well-formedness: a resolved entry has a cleared timer and a
promise fulfilled exactly once; an unresolved entry has a live timer and an
unfulfilled promise. -/
def EntryInv (e : PendingEntry) : Prop :=
  match e.record.resolvedAtMs with
  | some _ => e.timerActive = false ∧ e.fulfillments.length = 1
  | none => e.timerActive = true ∧ e.fulfillments = []

/-- Broker-wide invariant: every tracked entry is well-formed. -/
def StateInv (st : BrokerState) : Prop :=
  ∀ id e, lookupPending st.pending id = some e → EntryInv e

/-- Event side condition matching normal use: records handed to `register`
come from `create` and are not resolved yet. -/
def OpRegistersUnresolved : BrokerOp → Prop
  | .register r => r.resolvedAtMs = none
  | _ => True

/-- Iterated explicit resolution, for the multi-entry journal property. -/
structure ResolveCall where
  id : String
  decision : ExecApprovalDecision
  resolvedBy : Option String
  now : Nat
deriving Repr, DecidableEq

/-- Iterate a list of `resolve` calls over the broker state, journal writes
succeeding. -/
def resolveAll : BrokerState → List ResolveCall → BrokerState
  | st, [] => st
  | st, c :: cs =>
    resolveAll (resolveOp st c.id c.decision c.resolvedBy c.now .ok).1 cs

/-- View of the record currently tracked under an id. -/
def recordAt (st : BrokerState) (id : String) : ExecApprovalRecord :=
  match lookupPending st.pending id with
  | some e => e.record
  | none => default

/-- The journal entry a `resolve` call produces, expressed against the state
the call finds its record in. -/
def entryOfCall (st : BrokerState) (c : ResolveCall) : JournalEntry :=
  journalEntryOf (stampRecord (recordAt st c.id) c.decision c.resolvedBy c.now)

/-! ### Lemmas about the pending map -/

theorem lookup_setPending (m : List (String × PendingEntry)) (id : String)
    (e : PendingEntry) (k : String) :
    lookupPending (setPending m id e) k =
      if id = k then some e else lookupPending m k := by
  induction m with
  | nil =>
    by_cases h : id = k <;> simp [setPending, lookupPending, h]
  | cons kv rest ih =>
    obtain ⟨k0, v⟩ := kv
    by_cases h : k0 = id
    · subst h
      by_cases h2 : k0 = k <;> simp [setPending, lookupPending, h2]
    · by_cases h2 : k0 = k
      · subst h2
        have hik : ¬ (id = k0) := fun hh => h hh.symm
        simp [setPending, h, lookupPending, hik]
      · simp [setPending, h, lookupPending, h2, ih]

theorem lookup_deletePending (m : List (String × PendingEntry)) (id : String)
    (k : String) :
    lookupPending (deletePending m id) k =
      if k = id then none else lookupPending m k := by
  induction m with
  | nil =>
    by_cases h : k = id <;> simp [deletePending, lookupPending, h]
  | cons kv rest ih =>
    obtain ⟨k0, v⟩ := kv
    by_cases h : k0 = id
    · subst h
      by_cases h2 : k0 = k
      · subst h2
        simp [deletePending, lookupPending] at ih ⊢
        simpa using ih
      · have hk : ¬ (k0 = k) := h2
        simp [deletePending, lookupPending, hk] at ih ⊢
        simpa using ih
    · by_cases h2 : k0 = k
      · subst h2
        have hk : ¬ (k0 = id) := h
        simp [deletePending, lookupPending, hk]
      · simp [deletePending, lookupPending, h, h2] at ih ⊢
        simpa using ih

/-! ### Reduction lemmas for the operations -/

theorem resolveOp_not_found (st : BrokerState) (id : String)
    (d : ExecApprovalDecision) (rb : Option String) (now : Nat)
    (w : WriteOutcome) (h : lookupPending st.pending id = none) :
    resolveOp st id d rb now w = (st, false) := by
  simp [resolveOp, h]

theorem resolveOp_already_resolved (st : BrokerState) (id : String)
    (e : PendingEntry) (t : Nat) (d : ExecApprovalDecision)
    (rb : Option String) (now : Nat) (w : WriteOutcome)
    (hlook : lookupPending st.pending id = some e)
    (hres : e.record.resolvedAtMs = some t) :
    resolveOp st id d rb now w = (st, false) := by
  simp [resolveOp, hlook, hres]

theorem resolveOp_success (st : BrokerState) (id : String) (e : PendingEntry)
    (d : ExecApprovalDecision) (rb : Option String) (now : Nat)
    (w : WriteOutcome)
    (hlook : lookupPending st.pending id = some e)
    (hunres : e.record.resolvedAtMs = none) :
    resolveOp st id d rb now w =
      ({ st with
          pending := setPending st.pending id
            { e with
              record := stampRecord e.record d rb now
              timerActive := false
              fulfillments := e.fulfillments ++ [some d] }
          fs := appendJournalEntry st.persistDir st.fs
            (stampRecord e.record d rb now) w },
       true) := by
  simp [resolveOp, hlook, hunres]

theorem timerFireOp_fires (st : BrokerState) (id : String) (e : PendingEntry)
    (now : Nat)
    (hlook : lookupPending st.pending id = some e)
    (hactive : e.timerActive = true) :
    timerFireOp st id now =
      { st with
        pending := setPending st.pending id
          { e with
            record := { e.record with
              resolvedAtMs := some now
              decision := none
              resolvedBy := some none }
            timerActive := false
            fulfillments := e.fulfillments ++ [none] } } := by
  simp [timerFireOp, hlook, hactive]

/-! ### Concrete sample states used by witnesses -/

def sampleRequest : ExecApprovalRequestPayload := { command := "echo hello" }

def sampleRecord : ExecApprovalRecord :=
  { id := "a", request := sampleRequest, createdAtMs := 1, expiresAtMs := 31 }

def sampleEntry : PendingEntry :=
  { record := sampleRecord, timerActive := true, promiseId := 0,
    fulfillments := [] }

def sampleState : BrokerState :=
  { persistDir := some "approvals"
    pending := [("a", sampleEntry)]
    nextPromiseId := 1
    fs := { dirExists := true, file := .content [] 384 } }

def sampleStateNoDir : BrokerState :=
  { persistDir := none
    pending := [("a", sampleEntry)]
    nextPromiseId := 1
    fs := { dirExists := false, file := .absent } }

def sampleResolvedEntry : PendingEntry :=
  { record := { sampleRecord with
      resolvedAtMs := some 7
      decision := some "approve"
      resolvedBy := some (some "u") }
    timerActive := false
    promiseId := 0
    fulfillments := [some "approve"] }

def sampleResolvedState : BrokerState :=
  { persistDir := some "approvals"
    pending := [("a", sampleResolvedEntry)]
    nextPromiseId := 1
    fs := { dirExists := true, file := .content [] 384 } }

def sampleRecordB : ExecApprovalRecord :=
  { id := "b", request := { command := "cmd2" }, createdAtMs := 2,
    expiresAtMs := 32 }

def sampleEntryB : PendingEntry :=
  { record := sampleRecordB
    timerActive := true
    promiseId := 1
    fulfillments := [] }

def sampleState2 : BrokerState :=
  { persistDir := some "approvals"
    pending := [("a", sampleEntry), ("b", sampleEntryB)]
    nextPromiseId := 2
    fs := { dirExists := true, file := .content [] 384 } }

def callA : ResolveCall :=
  { id := "a", decision := "approve", resolvedBy := some "user-a", now := 5 }

def callB : ResolveCall :=
  { id := "b", decision := "deny", resolvedBy := some "user-b", now := 6 }

/-! ### Claim theorems -/

/-- C8: `create(request, timeoutMs, id?)` returns a record whose
`createdAtMs` is the current time and whose `expiresAtMs` is that time plus
`timeoutMs`; its id is the supplied id when that is non-empty after trimming
and the fresh generated id otherwise; and `create` leaves the broker state
(in particular the pending map) unchanged. -/
theorem c8_create_contract (st : BrokerState)
    (request : ExecApprovalRequestPayload) (timeoutMs : Nat)
    (id : Option String) (now : Nat) (uuid : String) :
    (create request timeoutMs id now uuid).createdAtMs = now ∧
    (create request timeoutMs id now uuid).expiresAtMs = now + timeoutMs ∧
    (create request timeoutMs id now uuid).request = request ∧
    (∀ s, id = some s → (jsTrim s).length > 0 →
      (create request timeoutMs id now uuid).id = jsTrim s) ∧
    (id = none → (create request timeoutMs id now uuid).id = uuid) ∧
    (∀ s, id = some s → (jsTrim s).length = 0 →
      (create request timeoutMs id now uuid).id = uuid) ∧
    (createOp st request timeoutMs id now uuid).2 = st ∧
    (createOp st request timeoutMs id now uuid).2.pending = st.pending := by
  refine ⟨rfl, rfl, rfl, ?_, ?_, ?_, rfl, rfl⟩
  · intro s hs hlen
    subst hs
    simp [create, hlen]
  · intro h
    subst h
    rfl
  · intro s hs hlen
    subst hs
    simp [create, hlen]

/-- Witness for C8 at concrete inputs: a padded supplied id is trimmed and
kept, a whitespace-only supplied id falls back to the generated uuid, and the
timestamps are as claimed. -/
theorem c8_create_contract_witness :
    (create sampleRequest 30000 (some "  abc ") 100 "u-1").createdAtMs = 100 ∧
    (create sampleRequest 30000 (some "  abc ") 100 "u-1").expiresAtMs = 30100 ∧
    (create sampleRequest 30000 (some "  abc ") 100 "u-1").id = "abc" ∧
    (create sampleRequest 30000 (some "   ") 100 "u-1").id = "u-1" ∧
    (createOp sampleState sampleRequest 30000 (some "  abc ") 100 "u-1").2 =
      sampleState := by
  have h1 := c8_create_contract sampleState sampleRequest 30000
    (some "  abc ") 100 "u-1"
  have h2 := c8_create_contract sampleState sampleRequest 30000
    (some "   ") 100 "u-1"
  refine ⟨h1.1, h1.2.1, ?_, ?_, h1.2.2.2.2.2.2.1⟩
  · exact h1.2.2.2.1 "  abc " rfl (by decide)
  · exact h2.2.2.2.2.2.1 "   " rfl (by decide)

/-- C10: whenever `resolve` returns `false` (unknown id or already-resolved
id), the whole broker state is unchanged: the pending map, the fields of
every record, every timer, and the journal file are exactly as before. -/
theorem c10_failed_resolve_leaves_state (st : BrokerState) (id : String)
    (d : ExecApprovalDecision) (rb : Option String) (now : Nat)
    (w : WriteOutcome) (h : (resolveOp st id d rb now w).2 = false) :
    (resolveOp st id d rb now w).1 = st := by
  cases hl : lookupPending st.pending id with
  | none => rw [resolveOp_not_found st id d rb now w hl]
  | some p =>
    cases hr : p.record.resolvedAtMs with
    | some t => rw [resolveOp_already_resolved st id p t d rb now w hl hr]
    | none =>
      rw [resolveOp_success st id p d rb now w hl hr] at h
      exact absurd h (by simp)

/-- Witness for C10: resolving an unknown id on a concrete state returns
`false` and leaves the state untouched. -/
theorem c10_failed_resolve_leaves_state_witness :
    (resolveOp sampleState "missing" "approve" none 9 .ok).1 = sampleState :=
  c10_failed_resolve_leaves_state sampleState "missing" "approve" none 9 .ok
    (by decide)

/-- C5: `loadJournal()` yields the empty list with no persist directory
configured and when the file is absent; a non-ENOENT read failure propagates
as an error; and each line is parsed independently, a malformed or blank line
being skipped without affecting the entries parsed from the other lines. -/
theorem c5_loadJournal_contract :
    (∀ (file : FsFile) (rf : Bool), loadJournal none file rf = .ok []) ∧
    (∀ (dir : String), loadJournal (some dir) .absent false = .ok []) ∧
    (∀ (dir : String) (file : FsFile),
      loadJournal (some dir) file true = .error .ioError) ∧
    (∀ (dir : String) (l1 l2 : List JournalLine) (m : Nat),
      loadJournal (some dir) (.content (l1 ++ [.malformed] ++ l2) m) false =
        .ok (parseLines l1 ++ parseLines l2)) ∧
    (∀ (dir : String) (l1 l2 : List JournalLine) (m : Nat),
      loadJournal (some dir) (.content (l1 ++ [.blank] ++ l2) m) false =
        .ok (parseLines l1 ++ parseLines l2)) := by
  refine ⟨fun file rf => rfl, fun dir => rfl, fun dir file => rfl, ?_, ?_⟩
  · intro dir l1 l2 m
    simp [loadJournal, readJournalFile, parseLines, List.filterMap_append,
      parseLine]
  · intro dir l1 l2 m
    simp [loadJournal, readJournalFile, parseLines, List.filterMap_append,
      parseLine]

/-- C9: with a persist directory configured, `appendJournalEntry` ensures the
directory exists, appends exactly one line holding the serialized entry of
the resolved record, creates the file with mode `0o600` when absent and keeps
the existing mode otherwise; a `mkdirSync` or `appendFileSync` failure is
swallowed, leaving the file untouched and never reaching `resolve`, which
still returns `true` for a pending id under any write outcome. -/
theorem c9_appendJournalEntry_contract (fs : FsState)
    (record : ExecApprovalRecord) (dir : String) :
    (appendJournalEntry (some dir) fs record .ok).dirExists = true ∧
    (fs.file = .absent →
      (appendJournalEntry (some dir) fs record .ok).file =
        .content [.entry (journalEntryOf record)] 0o600) ∧
    (∀ ls m, fs.file = .content ls m →
      (appendJournalEntry (some dir) fs record .ok).file =
        .content (ls ++ [.entry (journalEntryOf record)]) m) ∧
    (appendJournalEntry (some dir) fs record .mkdirFails = fs) ∧
    ((appendJournalEntry (some dir) fs record .appendFails).file = fs.file) ∧
    (∀ (st : BrokerState) (id : String) (e : PendingEntry)
       (d : ExecApprovalDecision) (rb : Option String) (now : Nat)
       (w : WriteOutcome),
       lookupPending st.pending id = some e →
       e.record.resolvedAtMs = none →
       (resolveOp st id d rb now w).2 = true) := by
  refine ⟨rfl, ?_, ?_, rfl, rfl, ?_⟩
  · intro hf
    simp [appendJournalEntry, hf]
  · intro ls m hf
    simp [appendJournalEntry, hf]
  · intro st id e d rb now w hlook hunres
    rw [resolveOp_success st id e d rb now w hlook hunres]

/-- Witness for C9: on a concrete absent file the append creates the file
with the single entry and mode `0o600`, and a concrete pending resolve
returns `true` even when the append fails. -/
theorem c9_appendJournalEntry_contract_witness :
    (appendJournalEntry (some "approvals")
        { dirExists := false, file := .absent } sampleRecord .ok).file =
      .content [.entry (journalEntryOf sampleRecord)] 0o600 ∧
    (resolveOp sampleState "a" "approve" (some "test-user") 5
        .appendFails).2 = true := by
  have h := c9_appendJournalEntry_contract
    { dirExists := false, file := .absent } sampleRecord "approvals"
  exact ⟨h.2.1 rfl,
    h.2.2.2.2.2 sampleState "a" sampleEntry "approve" (some "test-user") 5
      .appendFails (by decide) rfl⟩

/-- C1: for a registered id whose record is still unresolved, `resolve`
returns `true`, cancels the pending timer, stamps
`resolvedAtMs`/`decision`/`resolvedBy`, appends exactly one journal entry and
fulfills the decision future with the decision; for an unknown or
already-resolved id it returns `false` without an exception; a second
`resolve` of the same id returns `false` and changes nothing, so the journal
keeps the single entry of the first call and the record keeps the first
decision. -/
theorem c1_resolve_contract (st : BrokerState) (id : String)
    (e : PendingEntry) (d : ExecApprovalDecision) (rb : Option String)
    (now : Nat) (dir : String) (ls : List JournalLine) (m : Nat)
    (hlook : lookupPending st.pending id = some e)
    (hunres : e.record.resolvedAtMs = none)
    (hdir : st.persistDir = some dir)
    (hfile : st.fs.file = .content ls m) :
    (resolveOp st id d rb now .ok).2 = true ∧
    (∃ e2, lookupPending (resolveOp st id d rb now .ok).1.pending id = some e2 ∧
      e2.timerActive = false ∧
      e2.record.resolvedAtMs = some now ∧
      e2.record.decision = some d ∧
      e2.record.resolvedBy = some rb ∧
      e2.fulfillments = e.fulfillments ++ [some d]) ∧
    (resolveOp st id d rb now .ok).1.fs.file =
      .content (ls ++ [.entry (journalEntryOf (stampRecord e.record d rb now))]) m ∧
    (∀ (d2 : ExecApprovalDecision) (rb2 : Option String) (now2 : Nat)
       (w2 : WriteOutcome),
       resolveOp (resolveOp st id d rb now .ok).1 id d2 rb2 now2 w2 =
         ((resolveOp st id d rb now .ok).1, false)) ∧
    (∀ id2, lookupPending st.pending id2 = none →
      ∀ (w : WriteOutcome), resolveOp st id2 d rb now w = (st, false)) ∧
    (∀ id2 e2 t, lookupPending st.pending id2 = some e2 →
      e2.record.resolvedAtMs = some t →
      ∀ (w : WriteOutcome), resolveOp st id2 d rb now w = (st, false)) := by
  have hs := resolveOp_success st id e d rb now .ok hlook hunres
  refine ⟨by rw [hs], ?_, ?_, ?_, ?_, ?_⟩
  · rw [hs]
    refine ⟨{ e with
        record := stampRecord e.record d rb now
        timerActive := false
        fulfillments := e.fulfillments ++ [some d] }, ?_, rfl, rfl, rfl, rfl, rfl⟩
    simp [lookup_setPending]
  · rw [hs]
    simp [appendJournalEntry, hdir, hfile]
  · intro d2 rb2 now2 w2
    rw [hs]
    refine resolveOp_already_resolved _ id
      { e with
        record := stampRecord e.record d rb now
        timerActive := false
        fulfillments := e.fulfillments ++ [some d] } now d2 rb2 now2 w2 ?_ rfl
    simp [lookup_setPending]
  · intro id2 h2 w
    exact resolveOp_not_found st id2 d rb now w h2
  · intro id2 e2 t h2 hr2 w
    exact resolveOp_already_resolved st id2 e2 t d rb now w h2 hr2

/-- Witness for C1 on a concrete broker: the first resolve succeeds, the
journal gains the one expected entry, and the second resolve of the same id
fails with the state unchanged. -/
theorem c1_resolve_contract_witness :
    (resolveOp sampleState "a" "approve" (some "test-user") 5 .ok).2 = true ∧
    (resolveOp sampleState "a" "approve" (some "test-user") 5 .ok).1.fs.file =
      .content [.entry (journalEntryOf
        (stampRecord sampleRecord "approve" (some "test-user") 5))] 384 ∧
    (resolveOp (resolveOp sampleState "a" "approve" (some "test-user") 5 .ok).1
        "a" "deny" (some "other") 6 .ok) =
      ((resolveOp sampleState "a" "approve" (some "test-user") 5 .ok).1,
        false) := by
  have h := c1_resolve_contract sampleState "a" sampleEntry "approve"
    (some "test-user") 5 "approvals" [] 384 (by decide) rfl rfl rfl
  exact ⟨h.1, h.2.2.1, h.2.2.2.1 "deny" (some "other") 6 .ok⟩

/-- C3: when the registered timer fires before an explicit resolve, the entry
undergoes the same resolution transition as an explicit decision —
`resolvedAtMs` is stamped, `decision` is left absent, `resolvedBy` becomes
null, and the decision future is fulfilled with the absent-decision value —
but the filesystem is untouched: no journal entry is written for an expiry. -/
theorem c3_timer_expiry_contract (st : BrokerState) (id : String)
    (e : PendingEntry) (now : Nat)
    (hlook : lookupPending st.pending id = some e)
    (hactive : e.timerActive = true) :
    (∃ e2, lookupPending (timerFireOp st id now).pending id = some e2 ∧
      e2.record.resolvedAtMs = some now ∧
      e2.record.decision = none ∧
      e2.record.resolvedBy = some none ∧
      e2.timerActive = false ∧
      e2.fulfillments = e.fulfillments ++ [none]) ∧
    (timerFireOp st id now).fs = st.fs ∧
    (timerFireOp st id now).persistDir = st.persistDir := by
  have hf := timerFireOp_fires st id e now hlook hactive
  refine ⟨?_, by rw [hf], by rw [hf]⟩
  rw [hf]
  refine ⟨{ e with
      record := { e.record with
        resolvedAtMs := some now
        decision := none
        resolvedBy := some none }
      timerActive := false
      fulfillments := e.fulfillments ++ [none] }, ?_, rfl, rfl, rfl, rfl, rfl⟩
  simp [lookup_setPending]

/-- Witness for C3 on a concrete broker: after the timer fires, the tracked
record is stamped as expired with no decision and a null resolver, the future
is fulfilled with the absent value, and the journal file is unchanged. -/
theorem c3_timer_expiry_contract_witness :
    (∃ e2, lookupPending (timerFireOp sampleState "a" 31).pending "a" = some e2 ∧
      e2.record.resolvedAtMs = some 31 ∧
      e2.record.decision = none ∧
      e2.record.resolvedBy = some none ∧
      e2.timerActive = false ∧
      e2.fulfillments = [none]) ∧
    (timerFireOp sampleState "a" 31).fs = sampleState.fs :=
  let h := c3_timer_expiry_contract sampleState "a" sampleEntry 31
    (by decide) rfl
  ⟨h.1, h.2.1⟩

/-- C4: `register` is idempotent while the id is still pending — it returns
the promise of the existing entry and leaves the state (hence the single
timer) unchanged — and registering an id that is already resolved fails with the
already-resolved error instead of succeeding or returning the old promise. -/
theorem c4_register_contract (st : BrokerState)
    (record : ExecApprovalRecord) :
    (∀ e, lookupPending st.pending record.id = some e →
      e.record.resolvedAtMs = none →
      registerOp st record = .ok (st, e.promiseId)) ∧
    (∀ e t, lookupPending st.pending record.id = some e →
      e.record.resolvedAtMs = some t →
      registerOp st record =
        .error ("approval id " ++ record.id ++ " already resolved")) := by
  constructor
  · intro e hlook hunres
    simp [registerOp, hlook, hunres]
  · intro e t hlook hres
    simp [registerOp, hlook, hres]

/-- Witness for C4: on a concrete broker, re-registering the pending id
returns the existing promise with the state unchanged, and registering the id
once resolved yields the already-resolved error. -/
theorem c4_register_contract_witness :
    registerOp sampleState sampleRecord = .ok (sampleState, 0) ∧
    registerOp sampleResolvedState sampleRecord =
      .error ("approval id " ++ "a" ++ " already resolved") := by
  have h1 := c4_register_contract sampleState sampleRecord
  have h2 := c4_register_contract sampleResolvedState sampleRecord
  exact ⟨h1.1 sampleEntry (by decide) rfl,
    h2.2 sampleResolvedEntry 7 (by decide) rfl⟩

/-- C7: with no durable directory configured, `create` is a pure no-op on the
state, `register` succeeds without touching the filesystem, `resolve` of a
pending id returns `true` while the journal write is skipped (filesystem
unchanged), and both `loadJournal()` and `getAuditLog()` return the empty
sequence instead of failing. -/
theorem c7_no_persist_dir (st : BrokerState) (hdir : st.persistDir = none) :
    (∀ (request : ExecApprovalRequestPayload) (timeoutMs : Nat)
       (id : Option String) (now : Nat) (uuid : String),
       (createOp st request timeoutMs id now uuid).2 = st) ∧
    (∀ (record : ExecApprovalRecord) (st' : BrokerState) (pid : Nat),
       registerOp st record = .ok (st', pid) →
       st'.fs = st.fs ∧ st'.persistDir = none) ∧
    (∀ (id : String) (e : PendingEntry) (d : ExecApprovalDecision)
       (rb : Option String) (now : Nat) (w : WriteOutcome),
       lookupPending st.pending id = some e →
       e.record.resolvedAtMs = none →
       (resolveOp st id d rb now w).2 = true ∧
       (resolveOp st id d rb now w).1.fs = st.fs) ∧
    (∀ (file : FsFile) (rf : Bool),
       loadJournal st.persistDir file rf = .ok []) ∧
    (∀ (file : FsFile) (rf : Bool) (limit : Option Nat),
       getAuditLog st.persistDir file rf limit = .ok []) := by
  refine ⟨fun _ _ _ _ _ => rfl, ?_, ?_, ?_, ?_⟩
  · intro record st' pid hreg
    cases hl : lookupPending st.pending record.id with
    | some e =>
      cases hr : e.record.resolvedAtMs with
      | none =>
        simp [registerOp, hl, hr] at hreg
        rw [← hreg.1]
        exact ⟨rfl, hdir⟩
      | some t => simp [registerOp, hl, hr] at hreg
    | none =>
      simp [registerOp, hl] at hreg
      rw [← hreg.1]
      exact ⟨rfl, hdir⟩
  · intro id e d rb now w hlook hunres
    rw [resolveOp_success st id e d rb now w hlook hunres]
    refine ⟨rfl, ?_⟩
    simp [appendJournalEntry, hdir]
  · intro file rf
    rw [hdir]
    rfl
  · intro file rf limit
    rw [hdir]
    cases limit with
    | none => rfl
    | some k => simp [getAuditLog, loadJournal, takeLast]

/-- Witness for C7 on a concrete in-memory broker: resolving the pending id
returns `true`, the filesystem stays untouched, and the journal views are
empty. -/
theorem c7_no_persist_dir_witness :
    (resolveOp sampleStateNoDir "a" "approve" none 5 .ok).2 = true ∧
    (resolveOp sampleStateNoDir "a" "approve" none 5 .ok).1.fs =
      sampleStateNoDir.fs ∧
    loadJournal sampleStateNoDir.persistDir .absent false = .ok [] ∧
    getAuditLog sampleStateNoDir.persistDir .absent false (some 3) = .ok [] := by
  have h := c7_no_persist_dir sampleStateNoDir rfl
  have hr := h.2.2.1 "a" sampleEntry "approve" none 5 .ok (by decide) rfl
  exact ⟨hr.1, hr.2, h.2.2.2.1 .absent false, h.2.2.2.2 .absent false (some 3)⟩

/-! ### Invariant lemmas for monotonic resolution -/

theorem stateInv_resolved_len (st : BrokerState) (hinv : StateInv st)
    (id : String) (e : PendingEntry) (t : Nat)
    (h : lookupPending st.pending id = some e)
    (ht : e.record.resolvedAtMs = some t) : e.fulfillments.length = 1 := by
  have hi := hinv id e h
  simp only [EntryInv, ht] at hi
  exact hi.2

theorem c2_aux_unchanged (st st2 : BrokerState) (hinv : StateInv st)
    (heq : st2 = st) :
    StateInv st2 ∧
    (∀ (id : String) (e : PendingEntry) (t : Nat),
      lookupPending st.pending id = some e →
      e.record.resolvedAtMs = some t →
      ∀ e2, lookupPending st2.pending id = some e2 →
        e2.record.resolvedAtMs = some t ∧ e2.fulfillments.length = 1) := by
  subst heq
  refine ⟨hinv, ?_⟩
  intro id e t h ht e2 h2
  rw [h] at h2
  injection h2 with h3
  subst h3
  exact ⟨ht, stateInv_resolved_len st2 hinv id e t h ht⟩

/-- C2: resolution is monotonic and exactly-once.  Starting from a state in
which every tracked entry is well-formed, any event — registration of a fresh
(unresolved) record, explicit resolve, timer expiry, or grace-period eviction
— preserves well-formedness, and once a record carries `resolvedAtMs = t`,
after the event the id is either evicted or still carries the same `t`, its
decision future fulfilled exactly once. -/
theorem c2_resolution_monotonic (st : BrokerState) (op : BrokerOp)
    (hinv : StateInv st) (hop : OpRegistersUnresolved op) :
    StateInv (stepOp st op) ∧
    (∀ (id : String) (e : PendingEntry) (t : Nat),
      lookupPending st.pending id = some e →
      e.record.resolvedAtMs = some t →
      ∀ e2, lookupPending (stepOp st op).pending id = some e2 →
        e2.record.resolvedAtMs = some t ∧ e2.fulfillments.length = 1) := by
  cases op with
  | register r =>
    cases hl : lookupPending st.pending r.id with
    | some existing =>
      refine c2_aux_unchanged st _ hinv ?_
      cases hr : existing.record.resolvedAtMs with
      | none => simp [stepOp, registerOp, hl, hr]
      | some t0 => simp [stepOp, registerOp, hl, hr]
    | none =>
      have hop' : r.resolvedAtMs = none := hop
      have hstep : stepOp st (.register r) =
          { st with
            pending := setPending st.pending r.id
              { record := r, timerActive := true,
                promiseId := st.nextPromiseId, fulfillments := [] }
            nextPromiseId := st.nextPromiseId + 1 } := by
        simp [stepOp, registerOp, hl]
      rw [hstep]
      constructor
      · intro id e h
        rw [lookup_setPending] at h
        by_cases hid : r.id = id
        · rw [if_pos hid] at h
          injection h with h3
          subst h3
          simp [EntryInv, hop']
        · rw [if_neg hid] at h
          exact hinv id e h
      · intro id e t h ht e2 h2
        rw [lookup_setPending] at h2
        by_cases hid : r.id = id
        · rw [← hid] at h
          rw [hl] at h
          cases h
        · rw [if_neg hid] at h2
          rw [h] at h2
          injection h2 with h3
          subst h3
          exact ⟨ht, stateInv_resolved_len st hinv id e t h ht⟩
  | resolve id0 d rb now w =>
    cases hl : lookupPending st.pending id0 with
    | none =>
      refine c2_aux_unchanged st _ hinv ?_
      simp [stepOp, resolveOp_not_found st id0 d rb now w hl]
    | some p =>
      cases hr : p.record.resolvedAtMs with
      | some t0 =>
        refine c2_aux_unchanged st _ hinv ?_
        simp [stepOp, resolveOp_already_resolved st id0 p t0 d rb now w hl hr]
      | none =>
        have hful : p.fulfillments = [] := by
          have hi := hinv id0 p hl
          simp only [EntryInv, hr] at hi
          exact hi.2
        have hstep : stepOp st (.resolve id0 d rb now w) =
            { st with
              pending := setPending st.pending id0
                { p with
                  record := stampRecord p.record d rb now
                  timerActive := false
                  fulfillments := p.fulfillments ++ [some d] }
              fs := appendJournalEntry st.persistDir st.fs
                (stampRecord p.record d rb now) w } := by
          simp [stepOp, resolveOp_success st id0 p d rb now w hl hr]
        rw [hstep]
        constructor
        · intro id e h
          rw [lookup_setPending] at h
          by_cases hid : id0 = id
          · rw [if_pos hid] at h
            injection h with h3
            subst h3
            simp [EntryInv, stampRecord, hful]
          · rw [if_neg hid] at h
            exact hinv id e h
        · intro id e t h ht e2 h2
          rw [lookup_setPending] at h2
          by_cases hid : id0 = id
          · rw [← hid] at h
            rw [hl] at h
            injection h with h3
            subst h3
            rw [hr] at ht
            cases ht
          · rw [if_neg hid] at h2
            rw [h] at h2
            injection h2 with h3
            subst h3
            exact ⟨ht, stateInv_resolved_len st hinv id e t h ht⟩
  | timerFire id0 now =>
    cases hl : lookupPending st.pending id0 with
    | none =>
      refine c2_aux_unchanged st _ hinv ?_
      simp [stepOp, timerFireOp, hl]
    | some p =>
      cases ha : p.timerActive with
      | false =>
        refine c2_aux_unchanged st _ hinv ?_
        simp [stepOp, timerFireOp, hl, ha]
      | true =>
        have hr : p.record.resolvedAtMs = none := by
          cases hrr : p.record.resolvedAtMs with
          | none => rfl
          | some t0 =>
            have hi := hinv id0 p hl
            simp only [EntryInv, hrr] at hi
            rw [ha] at hi
            cases hi.1
        have hful : p.fulfillments = [] := by
          have hi := hinv id0 p hl
          simp only [EntryInv, hr] at hi
          exact hi.2
        have hstep : stepOp st (.timerFire id0 now) =
            { st with
              pending := setPending st.pending id0
                { p with
                  record := { p.record with
                    resolvedAtMs := some now
                    decision := none
                    resolvedBy := some none }
                  timerActive := false
                  fulfillments := p.fulfillments ++ [none] } } := by
          simp [stepOp, timerFireOp_fires st id0 p now hl ha]
        rw [hstep]
        constructor
        · intro id e h
          rw [lookup_setPending] at h
          by_cases hid : id0 = id
          · rw [if_pos hid] at h
            injection h with h3
            subst h3
            simp [EntryInv, hful]
          · rw [if_neg hid] at h
            exact hinv id e h
        · intro id e t h ht e2 h2
          rw [lookup_setPending] at h2
          by_cases hid : id0 = id
          · rw [← hid] at h
            rw [hl] at h
            injection h with h3
            subst h3
            rw [hr] at ht
            cases ht
          · rw [if_neg hid] at h2
            rw [h] at h2
            injection h2 with h3
            subst h3
            exact ⟨ht, stateInv_resolved_len st hinv id e t h ht⟩
  | evict id0 pid =>
    cases hl : lookupPending st.pending id0 with
    | none =>
      refine c2_aux_unchanged st _ hinv ?_
      simp [stepOp, evictOp, hl]
    | some p =>
      by_cases hp : p.promiseId = pid
      · have hstep : stepOp st (.evict id0 pid) =
            { st with pending := deletePending st.pending id0 } := by
          simp [stepOp, evictOp, hl, hp]
        rw [hstep]
        constructor
        · intro id e h
          rw [lookup_deletePending] at h
          by_cases hid : id = id0
          · rw [if_pos hid] at h
            cases h
          · rw [if_neg hid] at h
            exact hinv id e h
        · intro id e t h ht e2 h2
          rw [lookup_deletePending] at h2
          by_cases hid : id = id0
          · rw [if_pos hid] at h2
            cases h2
          · rw [if_neg hid] at h2
            rw [h] at h2
            injection h2 with h3
            subst h3
            exact ⟨ht, stateInv_resolved_len st hinv id e t h ht⟩
      · refine c2_aux_unchanged st _ hinv ?_
        simp [stepOp, evictOp, hl, hp]

/-- Witness for C2 on a concrete broker: after a late timer fires against an
already-resolved entry, the entry still carries its original `resolvedAtMs`
and its future has been fulfilled exactly once. -/
theorem c2_resolution_monotonic_witness :
    sampleResolvedEntry.record.resolvedAtMs = some 7 ∧
    sampleResolvedEntry.fulfillments.length = 1 := by
  have hinv : StateInv sampleResolvedState := by
    intro id e h
    simp only [sampleResolvedState, lookupPending] at h
    by_cases hid : "a" = id
    · rw [if_pos hid] at h
      injection h with h3
      subst h3
      exact ⟨rfl, rfl⟩
    · rw [if_neg hid] at h
      cases h
  exact (c2_resolution_monotonic sampleResolvedState (.timerFire "a" 99) hinv
    trivial).2 "a" sampleResolvedEntry 7 (by decide) rfl sampleResolvedEntry
    (by decide)

/-! ### Accumulation of the journal over many resolutions -/

theorem parseLines_map_entry (es : List JournalEntry) :
    parseLines (es.map JournalLine.entry) = es := by
  induction es with
  | nil => rfl
  | cons e es ih =>
    simp only [parseLines, List.map_cons, List.filterMap_cons, parseLine]
    simp only [parseLines] at ih
    rw [ih]

theorem getAuditLog_entries (dir : String) (es : List JournalEntry) (m : Nat)
    (limit : Option Nat) :
    getAuditLog (some dir) (.content (es.map JournalLine.entry) m) false
        limit =
      .ok (match limit with
           | some k => if k > 0 then takeLast es k else es
           | none => es) := by
  simp only [getAuditLog, loadJournal, readJournalFile, Bool.false_eq_true,
    if_false, parseLines_map_entry]

theorem resolveAll_file (calls : List ResolveCall) :
    ∀ (st : BrokerState) (dir : String) (ls : List JournalLine) (m : Nat),
    st.persistDir = some dir →
    st.fs.file = .content ls m →
    (calls.map (·.id)).Nodup →
    (∀ c ∈ calls, ∃ e, lookupPending st.pending c.id = some e ∧
      e.record.resolvedAtMs = none) →
    (resolveAll st calls).fs.file =
      .content (ls ++ (calls.map (entryOfCall st)).map JournalLine.entry) m := by
  induction calls with
  | nil =>
    intro st dir ls m hdir hfile _ _
    simpa [resolveAll] using hfile
  | cons c cs ih =>
    intro st dir ls m hdir hfile hnodup hpend
    rw [List.map_cons, List.nodup_cons] at hnodup
    obtain ⟨hcnotin, hnodup'⟩ := hnodup
    obtain ⟨e, hlook, hunres⟩ := hpend c (List.mem_cons_self c cs)
    have hs := resolveOp_success st c.id e c.decision c.resolvedBy c.now
      .ok hlook hunres
    set st1 := (resolveOp st c.id c.decision c.resolvedBy c.now .ok).1
      with hst1
    have h1dir : st1.persistDir = some dir := by
      rw [hst1, hs]
      exact hdir
    have h1file : st1.fs.file =
        .content (ls ++ [.entry (entryOfCall st c)]) m := by
      rw [hst1, hs]
      simp [appendJournalEntry, hdir, hfile, entryOfCall, recordAt, hlook]
    have h1look : ∀ k, k ≠ c.id →
        lookupPending st1.pending k = lookupPending st.pending k := by
      intro k hk
      rw [hst1, hs]
      show lookupPending (setPending st.pending c.id _) k = _
      rw [lookup_setPending]
      exact if_neg (fun h => hk h.symm)
    have hpend' : ∀ c2 ∈ cs, ∃ e2,
        lookupPending st1.pending c2.id = some e2 ∧
        e2.record.resolvedAtMs = none := by
      intro c2 hc2
      obtain ⟨e2, hl2, hr2⟩ := hpend c2 (List.mem_cons_of_mem c hc2)
      have hne : c2.id ≠ c.id := by
        intro hcontra
        exact hcnotin (hcontra ▸ List.mem_map_of_mem (·.id) hc2)
      exact ⟨e2, (h1look c2.id hne).trans hl2, hr2⟩
    have hentries : cs.map (entryOfCall st1) = cs.map (entryOfCall st) := by
      apply List.map_congr_left
      intro c2 hc2
      have hne : c2.id ≠ c.id := by
        intro hcontra
        exact hcnotin (hcontra ▸ List.mem_map_of_mem (·.id) hc2)
      simp [entryOfCall, recordAt, h1look c2.id hne]
    have hra : resolveAll st (c :: cs) = resolveAll st1 cs := by
      rw [resolveAll]
    rw [hra, ih st1 dir (ls ++ [.entry (entryOfCall st c)]) m h1dir h1file
      hnodup' hpend', hentries]
    simp

/-- C6: resolving N distinct registered requests appends N journal entries,
in resolution order and without overwriting the earlier ones;
`getAuditLog()` with no limit then returns all N parsed entries in that
order, and `getAuditLog(k)` for `0 < k < N` returns exactly the last `k`
of them, in order. -/
theorem c6_audit_log_accumulates (st : BrokerState) (dir : String) (m : Nat)
    (calls : List ResolveCall)
    (hdir : st.persistDir = some dir)
    (hfile : st.fs.file = .content [] m)
    (hnodup : (calls.map (·.id)).Nodup)
    (hpend : ∀ c ∈ calls, ∃ e, lookupPending st.pending c.id = some e ∧
      e.record.resolvedAtMs = none) :
    (calls.map (entryOfCall st)).length = calls.length ∧
    (resolveAll st calls).fs.file =
      .content ((calls.map (entryOfCall st)).map JournalLine.entry) m ∧
    getAuditLog (some dir) (resolveAll st calls).fs.file false none =
      .ok (calls.map (entryOfCall st)) ∧
    (∀ k, 0 < k → k < calls.length →
      getAuditLog (some dir) (resolveAll st calls).fs.file false (some k) =
        .ok ((calls.map (entryOfCall st)).drop (calls.length - k)) ∧
      ((calls.map (entryOfCall st)).drop (calls.length - k)).length = k) := by
  have hf := resolveAll_file calls st dir [] m hdir hfile hnodup hpend
  rw [List.nil_append] at hf
  refine ⟨List.length_map _ _, hf, ?_, ?_⟩
  · rw [hf, getAuditLog_entries]
  · intro k hk0 hklen
    constructor
    · rw [hf, getAuditLog_entries]
      simp [hk0, takeLast, List.length_map]
    · rw [List.length_drop, List.length_map]
      omega

/-- Witness for C6: two concrete pending requests resolved in order produce
the two journal entries in that order; the unlimited audit view returns both
and the limit-1 view returns exactly the second. -/
theorem c6_audit_log_accumulates_witness :
    (resolveAll sampleState2 [callA, callB]).fs.file =
      .content [.entry (entryOfCall sampleState2 callA),
        .entry (entryOfCall sampleState2 callB)] 384 ∧
    getAuditLog (some "approvals") (resolveAll sampleState2 [callA, callB]).fs.file
        false none =
      .ok [entryOfCall sampleState2 callA, entryOfCall sampleState2 callB] ∧
    getAuditLog (some "approvals") (resolveAll sampleState2 [callA, callB]).fs.file
        false (some 1) =
      .ok [entryOfCall sampleState2 callB] := by
  have h := c6_audit_log_accumulates sampleState2 "approvals" 384
    [callA, callB] rfl rfl (by decide) ?_
  · exact ⟨h.2.1, h.2.2.1, (h.2.2.2 1 (by decide) (by decide)).1⟩
  · intro c hc
    rw [List.mem_cons] at hc
    rcases hc with rfl | hc
    · exact ⟨sampleEntry, by decide, rfl⟩
    · rw [List.mem_singleton] at hc
      subst hc
      exact ⟨sampleEntryB, by decide, rfl⟩

end ExecApproval
